import Mathlib

/-!
Verification of the CopyCat clipboard-history manager (`src/main.rs`)
against its specification.

Strings are modelled as lists of Unicode scalar values (`Str`).  The
clipboard store is a list of entries mirroring the program's
`VecDeque<ClipboardEntry>`: index 0 is the front of the deque, i.e. the
newest entry (`push_front` inserts new entries there).  Every mutating
operation also reports whether it wrote the persistence file, modelling
the `save_history` side effect as a boolean.
-/

namespace CopyCat

/-- Rust `String` / `&str`, modelled as a list of Unicode scalar values. -/
abbrev Str := List Char

/-- The capacity bound: `const MAX_HISTORY: usize = 1000;`. -/
def MAX_HISTORY : Nat := 1000

/-- The `ClipboardEntry` struct: `id: u64`, `content: String`,
`timestamp: u64`, `favorite: bool`.  The two integers are modelled as `Nat`
(they are only ever written as second-granularity timestamps). -/
structure ClipboardEntry where
  id : Nat
  content : Str
  timestamp : Nat
  favorite : Bool

/-- Constructor `ClipboardEntry::new`: both `id` and `timestamp` are set to
the current clock reading in seconds, and `favorite` starts out `false`. -/
def ClipboardEntry.new (now : Nat) (content : Str) : ClipboardEntry :=
  { id := now, content := content, timestamp := now, favorite := false }

/-- The capacity branch of `CopyCatApp::add_to_history`, verbatim: remove
the entry at `position(|e| !e.favorite)` — the first index from the front,
i.e. the newest end — via `VecDeque::remove`, else `pop_back` the oldest
when every entry is a favorite. -/
def evict_one (history : List ClipboardEntry) : List ClipboardEntry :=
  match history.findIdx? (fun e => !e.favorite) with
  | some index => history.eraseIdx index
  | none => history.dropLast

/-- Operation `CopyCatApp::add_to_history`.  Returns the updated store
together with a flag recording whether `save_history` ran.  Duplicate
content is a no-op; at capacity `evict_one` removes an entry; the new
entry is pushed to the front and the store is saved. -/
def add_to_history (now : Nat) (content : Str) (history : List ClipboardEntry) :
    List ClipboardEntry × Bool :=
  if history.any (fun e => e.content == content) then
    (history, false)
  else
    (ClipboardEntry.new now content ::
      (if MAX_HISTORY ≤ history.length then evict_one history else history),
      true)

/-- The fields of `CopyCatApp` that `poll_clipboard` touches. -/
structure PollState where
  last_clipboard_content : Str
  clipboard_history : List ClipboardEntry

/-- Operation `CopyCatApp::poll_clipboard`.  `read_text` is the result of
`Clipboard::get_text` (`none` models `Err`).  Non-empty text differing
from the last seen content updates `last_clipboard_content` and is fed to
`add_to_history`; everything else is ignored.  The boolean reports whether
a persistence write happened. -/
def poll_clipboard (now : Nat) (read_text : Option Str) (st : PollState) :
    PollState × Bool :=
  match read_text with
  | none => (st, false)
  | some text =>
      if text ≠ [] ∧ text ≠ st.last_clipboard_content then
        let r := add_to_history now text st.clipboard_history
        ({ last_clipboard_content := text, clipboard_history := r.fst }, r.snd)
      else
        (st, false)

/-- Rust `str::to_lowercase`, modelled character-wise. -/
def toLowercase (s : Str) : Str := s.map Char.toLower

/-- Operation `CopyCatApp::filtered_history`: keep an entry unless the
favorites filter rejects it; when the search query is non-empty the
lower-cased content must contain the lower-cased query as a substring. -/
def filtered_history (filter_favorites : Bool) (search_query : Str)
    (history : List ClipboardEntry) : List ClipboardEntry :=
  history.filter (fun e =>
    if filter_favorites && !e.favorite then false
    else if search_query ≠ [] then
      decide (toLowercase search_query <:+: toLowercase e.content)
    else true)

/-- A sequence of `add_to_history` calls (timestamp, content) folded over a
starting store, as produced by repeated polling. -/
def ingestAll (ops : List (Nat × Str)) (history : List ClipboardEntry) :
    List ClipboardEntry :=
  ops.foldl (fun h p => (add_to_history p.fst p.snd h).fst) history

/-- The i-th sample content: `i + 1` copies of `a`; distinct for distinct
`i`, with cheap inequality via the length. -/
def mkC (i : Nat) : Str := List.replicate (i + 1) 'a'

/-- The entry created when the i-th sample content is ingested at time `i`. -/
def mkE (i : Nat) : ClipboardEntry := ClipboardEntry.new i (mkC i)

/-- The store obtained after ingesting `mkC 0, …, mkC (n-1)` in order into
an empty store (for `n ≤ MAX_HISTORY`): newest first. -/
def bigStore (n : Nat) : List ClipboardEntry :=
  ((List.range n).reverse).map mkE

/-- The fragment of the JSON value model that the persistence format of
`VecDeque<ClipboardEntry>` uses. -/
inductive Json where
  | num (n : Nat)
  | str (s : Str)
  | bool (b : Bool)
  | arr (items : List Json)
  | obj (fields : List (String × Json))

def asNat : Json → Option Nat
  | .num n => some n
  | _ => none

def asStr : Json → Option Str
  | .str s => some s
  | _ => none

def asBool : Json → Option Bool
  | .bool b => some b
  | _ => none

/-- Serialization of one `ClipboardEntry` (serde derive). -/
def encodeEntry (e : ClipboardEntry) : Json :=
  .obj [("id", .num e.id), ("content", .str e.content),
    ("timestamp", .num e.timestamp), ("favorite", .bool e.favorite)]

/-- Deserialization of one `ClipboardEntry`: each field must be present
with the right shape, otherwise the entry is rejected. -/
def decodeEntry (j : Json) : Option ClipboardEntry :=
  match j with
  | .obj fields =>
      match (fields.lookup "id").bind asNat,
          (fields.lookup "content").bind asStr,
          (fields.lookup "timestamp").bind asNat,
          (fields.lookup "favorite").bind asBool with
      | some i, some c, some t, some f =>
          some { id := i, content := c, timestamp := t, favorite := f }
      | _, _, _, _ => none
  | _ => none

/-- Element-wise deserialization: one structurally invalid entry rejects
the whole sequence, as `serde_json::from_str` does. -/
def decodeEntries : List Json → Option (List ClipboardEntry)
  | [] => some []
  | j :: js =>
      match decodeEntry j, decodeEntries js with
      | some e, some es => some (e :: es)
      | _, _ => none

/-- Operation `CopyCatApp::save_history`: `serde_json::to_string` of the
store. -/
def save_history (history : List ClipboardEntry) : Json :=
  .arr (history.map encodeEntry)

/-- Deserialization of a whole store from a parsed JSON value, as
`serde_json::from_str::<VecDeque<ClipboardEntry>>` does. -/
def decodeStore : Json → Option (List ClipboardEntry)
  | .arr js => decodeEntries js
  | _ => none

/-- What `load_history` can observe of the persistence file. -/
inductive FileRead where
  | absent
  | ioError
  | malformed
  | parsed (j : Json)

/-- Operation `CopyCatApp::load_history`: a file that is absent, unreadable
(`ioError`), not JSON at all (`malformed`), or whose JSON does not decode
falls back to the empty store; otherwise the decoded sequence is
returned. -/
def load_history : FileRead → List ClipboardEntry
  | .absent => []
  | .ioError => []
  | .malformed => []
  | .parsed j => (decodeStore j).getD []

/-- The number of bytes of a character's UTF-8 encoding — what Rust's
`String::len` counts and `&s[..n]` indexes. -/
def charBytes (c : Char) : Nat :=
  if c.toNat < 0x80 then 1
  else if c.toNat < 0x800 then 2
  else if c.toNat < 0x10000 then 3
  else 4

/-- Rust `String::len`: the UTF-8 byte length. -/
def utf8Len (s : Str) : Nat := (s.map charBytes).sum

/-- Rust byte slice `&s[..n]`: the characters making up the first `n`
bytes when `n` is a character boundary inside `s`; `none` models the
panic at a non-boundary (or out-of-range) byte offset. -/
def takeBytes : Nat → Str → Option Str
  | 0, _ => some []
  | _ + 1, [] => none
  | n + 1, c :: cs =>
      if charBytes c ≤ n + 1 then
        (takeBytes (n + 1 - charBytes c) cs).map (fun t => c :: t)
      else none

/-- The preview computation in `update`: content whose byte length
exceeds 50 is replaced by its first 47 bytes followed by `...`. -/
def content_display (s : Str) : Option Str :=
  if utf8Len s > 50 then
    (takeBytes 47 s).map (fun t => t ++ ['.', '.', '.'])
  else some s

/-- The modulus of `u64` arithmetic. -/
def U64_MOD : Nat := 2 ^ 64

/-- Wrapping `u64` subtraction, the release-build meaning of
`now - self.timestamp` for operands below `2 ^ 64`. -/
def wrapSub (a b : Nat) : Nat := (a + U64_MOD - b % U64_MOD) % U64_MOD

/-- The four relative-age shapes produced by `formatted_time`:
`format!` with the given count into the s/m/h/d template. -/
inductive AgeDisplay where
  | secs (n : Nat)
  | mins (n : Nat)
  | hours (n : Nat)
  | days (n : Nat)

/-- The bucketing cascade of `ClipboardEntry::formatted_time`. -/
def ageBucket (diff : Nat) : AgeDisplay :=
  if diff < 60 then .secs diff
  else if diff < 3600 then .mins (diff / 60)
  else if diff < 86400 then .hours (diff / 3600)
  else .days (diff / 86400)

/-- Method `ClipboardEntry::formatted_time`: the age is the unguarded
`u64` subtraction `now - timestamp`, then bucketed. -/
def formatted_time (now timestamp : Nat) : AgeDisplay :=
  ageBucket (wrapSub now timestamp)

/-- Evicting always removes exactly one entry (on a nonempty store). -/
theorem length_evict_one (history : List ClipboardEntry) :
    (evict_one history).length = history.length - 1 := by
  unfold evict_one
  cases hidx : history.findIdx? (fun e => !e.favorite) with
  | some index =>
      have hlt : index < history.length :=
        (List.findIdx?_eq_some_iff_findIdx_eq.mp hidx).1
      simp [List.length_eraseIdx_of_lt hlt]
  | none => simp

/-- The value of `add_to_history` when the content is not yet present. -/
theorem add_to_history_of_not_mem (now : Nat) (content : Str)
    (history : List ClipboardEntry)
    (hdup : history.any (fun e => e.content == content) = false) :
    add_to_history now content history =
      (ClipboardEntry.new now content ::
        (if MAX_HISTORY ≤ history.length then evict_one history else history),
        true) := by
  simp [add_to_history, hdup]

/-- One `add_to_history` call preserves the capacity bound. -/
theorem add_to_history_length_le (now : Nat) (content : Str)
    (history : List ClipboardEntry) (hle : history.length ≤ MAX_HISTORY) :
    (add_to_history now content history).fst.length ≤ MAX_HISTORY := by
  by_cases hdup : history.any (fun e => e.content == content) = true
  · simpa [add_to_history, hdup] using hle
  · rw [add_to_history_of_not_mem now content history
      (Bool.eq_false_iff.mpr hdup)]
    have hM : 1 ≤ MAX_HISTORY := by norm_num [MAX_HISTORY]
    by_cases hcap : MAX_HISTORY ≤ history.length
    · rw [if_pos hcap]
      simp only [List.length_cons, length_evict_one]
      omega
    · rw [if_neg hcap]
      simp only [List.length_cons]
      omega

/-- Folding any operation sequence preserves the capacity bound from any
compliant start. -/
theorem ingestAll_length_le (ops : List (Nat × Str))
    (history : List ClipboardEntry) (hle : history.length ≤ MAX_HISTORY) :
    (ingestAll ops history).length ≤ MAX_HISTORY := by
  induction ops generalizing history with
  | nil => simpa [ingestAll] using hle
  | cons op ops ih =>
      simpa [ingestAll, List.foldl_cons] using
        ih _ (add_to_history_length_le op.fst op.snd history hle)

/-- C2: after any prefix (`take n`) of any sequence of ingest calls applied
to an initially empty store, the store holds at most `MAX_HISTORY` entries. -/
theorem store_size_never_exceeds_max (ops : List (Nat × Str)) (n : Nat) :
    (ingestAll (ops.take n) []).length ≤ MAX_HISTORY :=
  ingestAll_length_le (ops.take n) [] (by simp [MAX_HISTORY])

theorem mkC_inj {i j : Nat} (h : mkC i = mkC j) : i = j := by
  have := congrArg List.length h
  simpa [mkC] using this

theorem bigStore_succ (n : Nat) : bigStore (n + 1) = mkE n :: bigStore n := by
  simp [bigStore, List.range_succ]

theorem bigStore_length (n : Nat) : (bigStore n).length = n := by
  simp [bigStore]

theorem mem_bigStore_iff {e : ClipboardEntry} {n : Nat} :
    e ∈ bigStore n ↔ ∃ j, j < n ∧ e = mkE j := by
  simp only [bigStore, List.mem_map, List.mem_reverse, List.mem_range]
  constructor
  · rintro ⟨j, hj, rfl⟩; exact ⟨j, hj, rfl⟩
  · rintro ⟨j, hj, rfl⟩; exact ⟨j, hj, rfl⟩

/-- A fresh sample content is not yet present in a smaller sample store. -/
theorem bigStore_not_dup {n m : Nat} (h : n ≤ m) :
    (bigStore n).any (fun e => e.content == mkC m) = false := by
  rw [List.any_eq_false]
  intro e he
  obtain ⟨j, hj, rfl⟩ := mem_bigStore_iff.mp he
  simp only [mkE, ClipboardEntry.new, beq_eq_false_iff_ne, ne_eq]
  intro hc
  have hcc : mkC j = mkC m := by simpa using hc
  exact absurd (mkC_inj hcc) (by omega)

/-- Below capacity, a fresh ingest just pushes the new entry to the front. -/
theorem add_to_history_below_capacity (now : Nat) (content : Str)
    (history : List ClipboardEntry)
    (hdup : history.any (fun e => e.content == content) = false)
    (hlen : history.length < MAX_HISTORY) :
    add_to_history now content history =
      (ClipboardEntry.new now content :: history, true) := by
  rw [add_to_history_of_not_mem now content history hdup,
    if_neg (Nat.not_le_of_lt hlen)]

/-- Ingesting the first `n ≤ MAX_HISTORY` sample strings yields `bigStore n`. -/
theorem ingestAll_eq_bigStore {n : Nat} (h : n ≤ MAX_HISTORY) :
    ingestAll ((List.range n).map (fun i => (i, mkC i))) [] = bigStore n := by
  induction n with
  | zero => simp [ingestAll, bigStore]
  | succ k ih =>
      have hk : k ≤ MAX_HISTORY := Nat.le_of_succ_le h
      have hklt : k < MAX_HISTORY := Nat.lt_of_succ_le h
      rw [List.range_succ, List.map_append, ingestAll, List.foldl_append]
      have hbase := ih hk
      rw [ingestAll] at hbase
      rw [hbase]
      simp only [List.map_cons, List.map_nil, List.foldl_cons, List.foldl_nil]
      rw [add_to_history_below_capacity k (mkC k) (bigStore k)
        (bigStore_not_dup (Nat.le_refl k))
        (by rw [bigStore_length]; exact hklt)]
      rw [bigStore_succ]
      rfl

/-- Appending one operation to an ingest sequence runs it last. -/
theorem ingestAll_append_single (ops : List (Nat × Str)) (t : Nat) (c : Str)
    (h : List ClipboardEntry) :
    ingestAll (ops ++ [(t, c)]) h = (add_to_history t c (ingestAll ops h)).fst := by
  simp [ingestAll, List.foldl_append]

/-- When the front (newest) entry is not a favorite, `evict_one` removes
exactly that front entry. -/
theorem evict_one_of_head_not_favorite (e : ClipboardEntry)
    (t : List ClipboardEntry) (hfav : e.favorite = false) :
    evict_one (e :: t) = t := by
  unfold evict_one
  rw [List.findIdx?_cons]
  simp [hfav]

/-- C1: demonstration that the code evicts the NEWEST non-favorite, not the
oldest.  Ingesting the `MAX_HISTORY + 1 = 1001` distinct strings
`mkC 0, …, mkC 1000` into an empty store yields
`mkE 1000 :: bigStore 999`: the very first ingested string (`mkE 0`) is
still present, and the evicted entry is `mkE 999` — the newest entry at
eviction time — contradicting the oldest-non-favorite eviction policy of
the specification and the source's own comment
`// Remove oldest non-favorite entry`. -/
theorem eviction_removes_newest_nonfavorite :
    ingestAll ((List.range 1001).map (fun i => (i, mkC i))) []
        = mkE 1000 :: bigStore 999 ∧
    mkE 0 ∈ mkE 1000 :: bigStore 999 ∧
    mkE 999 ∉ mkE 1000 :: bigStore 999 := by
  have hsplit : bigStore 1000 = mkE 999 :: bigStore 999 := by
    rw [show (1000 : Nat) = 999 + 1 from rfl, bigStore_succ]
  refine ⟨?_, ?_, ?_⟩
  · have hev : evict_one (bigStore 1000) = bigStore 999 := by
      rw [hsplit]
      exact evict_one_of_head_not_favorite (mkE 999) (bigStore 999) rfl
    have hcap : MAX_HISTORY ≤ (bigStore 1000).length :=
      Nat.le_of_eq (bigStore_length 1000).symm
    have hadd := add_to_history_of_not_mem 1000 (mkC 1000) (bigStore 1000)
      (bigStore_not_dup (Nat.le_refl 1000))
    rw [if_pos hcap, hev] at hadd
    have hbase := ingestAll_eq_bigStore
      (show (1000 : Nat) ≤ MAX_HISTORY from Nat.le_refl 1000)
    have hops : ((List.range 1001).map (fun i => (i, mkC i)))
        = ((List.range 1000).map (fun i => (i, mkC i))) ++ [(1000, mkC 1000)] := by
      rw [show (1001 : Nat) = 1000 + 1 from rfl, List.range_succ,
        List.map_append]
      simp only [List.map_cons, List.map_nil]
    rw [hops, ingestAll_append_single, hbase, hadd]
    rfl
  · exact List.mem_cons_of_mem _
      (mem_bigStore_iff.mpr ⟨0, by norm_num, rfl⟩)
  · intro hmem
    rcases List.mem_cons.mp hmem with heq | hmem'
    · have hid := congrArg ClipboardEntry.id heq
      simp [mkE, ClipboardEntry.new] at hid
    · obtain ⟨j, hj, hje⟩ := mem_bigStore_iff.mp hmem'
      have hid := congrArg ClipboardEntry.id hje
      simp [mkE, ClipboardEntry.new] at hid
      omega

/-- C6: `filtered_history` is exactly the store filtered by the conjunction
of the two conditions (favorites flag, case-insensitive substring search),
and it is a subsequence of the store in the store's own order.  The
operation is a pure function of the store, so it cannot mutate it. -/
theorem filtered_history_spec (filter_favorites : Bool) (search_query : Str)
    (history : List ClipboardEntry) :
    filtered_history filter_favorites search_query history
      = history.filter (fun e =>
          decide ((filter_favorites = true → e.favorite = true) ∧
            (search_query ≠ [] →
              toLowercase search_query <:+: toLowercase e.content))) ∧
    (filtered_history filter_favorites search_query history).Sublist history := by
  constructor
  · unfold filtered_history
    refine List.filter_congr ?_
    intro e _
    by_cases hf : filter_favorites <;> by_cases hfav : e.favorite <;>
      by_cases hq : search_query = [] <;> simp [hf, hfav, hq]
  · exact List.filter_sublist _

/-- C3: ingesting the empty string — the poller reading empty clipboard
text — is a no-op: the state (store included) is unchanged and no
persistence write occurs. -/
theorem ingest_empty_string_noop (now : Nat) (st : PollState) :
    poll_clipboard now (some []) st = (st, false) := by
  simp [poll_clipboard]

/-- C5: ingesting text already present verbatim in the store leaves the
store completely unchanged (same list, hence same length, order, ids and
favorite flags) and performs no persistence write. -/
theorem ingest_duplicate_noop (now : Nat) (content : Str)
    (history : List ClipboardEntry)
    (h : ∃ e ∈ history, e.content = content) :
    add_to_history now content history = (history, false) := by
  have hany : history.any (fun e => e.content == content) = true := by
    obtain ⟨e, he, hc⟩ := h
    exact List.any_eq_true.mpr ⟨e, he, by simp [hc]⟩
  simp [add_to_history, hany]

/-- Witness for C5 at a concrete store. -/
theorem ingest_duplicate_noop_witness :
    (∃ e ∈ [ClipboardEntry.new 7 ['a']], e.content = ['a']) ∧
      add_to_history 9 ['a'] [ClipboardEntry.new 7 ['a']]
        = ([ClipboardEntry.new 7 ['a']], false) :=
  ⟨⟨ClipboardEntry.new 7 ['a'], List.mem_singleton.mpr rfl, rfl⟩,
    ingest_duplicate_noop 9 ['a'] [ClipboardEntry.new 7 ['a']]
      ⟨ClipboardEntry.new 7 ['a'], List.mem_singleton.mpr rfl, rfl⟩⟩

theorem decodeEntry_encodeEntry (e : ClipboardEntry) :
    decodeEntry (encodeEntry e) = some e := by
  simp [decodeEntry, encodeEntry, List.lookup, asNat, asStr, asBool]

theorem decodeEntries_encode (s : List ClipboardEntry) :
    decodeEntries (s.map encodeEntry) = some s := by
  induction s with
  | nil => rfl
  | cons e es ih => simp [decodeEntries, decodeEntry_encodeEntry, ih]

/-- Loading a saved store gives the store back (shared helper). -/
theorem load_parsed_save (s : List ClipboardEntry) :
    load_history (.parsed (save_history s)) = s := by
  simp [load_history, save_history, decodeStore, decodeEntries_encode]

/-- An undecodable element rejects the whole array (shared helper). -/
theorem decodeEntries_eq_none {js : List Json} {j : Json} (hmem : j ∈ js)
    (hbad : decodeEntry j = none) : decodeEntries js = none := by
  induction js with
  | nil => cases hmem
  | cons k ks ih =>
      rcases List.mem_cons.mp hmem with rfl | hmem'
      · simp [decodeEntries, hbad]
      · rw [decodeEntries, ih hmem']
        cases decodeEntry k <;> rfl

/-- C7: saving any store and loading the result reproduces the exact
ordered sequence of entries with all fields intact; and if any entry in
the file is structurally invalid, the whole load is rejected and falls
back to the empty store. -/
theorem save_load_roundtrip :
    (∀ s : List ClipboardEntry, load_history (.parsed (save_history s)) = s) ∧
    (∀ (js : List Json) (j : Json), j ∈ js → decodeEntry j = none →
      load_history (.parsed (.arr js)) = []) := by
  refine ⟨load_parsed_save, ?_⟩
  intro js j hmem hbad
  simp [load_history, decodeStore, decodeEntries_eq_none hmem hbad]

/-- Witness for C7 at a concrete store and a concrete invalid file. -/
theorem save_load_roundtrip_witness :
    load_history (.parsed (save_history [ClipboardEntry.new 3 ['b']]))
        = [ClipboardEntry.new 3 ['b']] ∧
    (Json.num 7 ∈ [Json.num 7] ∧ decodeEntry (Json.num 7) = none) ∧
      load_history (.parsed (.arr [Json.num 7])) = [] :=
  ⟨save_load_roundtrip.1 [ClipboardEntry.new 3 ['b']],
    ⟨List.mem_singleton.mpr rfl, rfl⟩,
    save_load_roundtrip.2 [Json.num 7] (Json.num 7)
      (List.mem_singleton.mpr rfl) rfl⟩

/-- C8: a persistence file that is absent, unreadable, or malformed JSON
yields the empty store; `load_history` is a total function, so no error
reaches the caller. -/
theorem load_failure_fallback :
    load_history .absent = [] ∧ load_history .ioError = [] ∧
      load_history .malformed = [] :=
  ⟨rfl, rfl, rfl⟩

/-- C9: the loader imposes no capacity bound: a well-formed file holding
`MAX_HISTORY + 1 = 1001` entries loads in full, exceeding the bound at the
public interface, and a subsequent fresh ingest removes only one entry
before inserting, so the store still holds 1001 entries. -/
theorem load_exceeds_capacity :
    load_history (.parsed (save_history (bigStore 1001))) = bigStore 1001 ∧
    (bigStore 1001).length = 1001 ∧
    MAX_HISTORY < (bigStore 1001).length ∧
    (add_to_history 1001 (mkC 1001) (bigStore 1001)).fst.length = 1001 := by
  refine ⟨load_parsed_save _, bigStore_length 1001, ?_, ?_⟩
  · rw [bigStore_length]
    norm_num [MAX_HISTORY]
  · rw [add_to_history_of_not_mem 1001 (mkC 1001) (bigStore 1001)
      (bigStore_not_dup (Nat.le_refl 1001))]
    rw [if_pos (by rw [bigStore_length]; norm_num [MAX_HISTORY])]
    simp [length_evict_one, bigStore_length]

theorem charBytes_ascii {c : Char} (h : c.toNat < 128) : charBytes c = 1 := by
  simp [charBytes, h]

theorem utf8Len_ascii {s : Str} (h : ∀ c ∈ s, c.toNat < 128) :
    utf8Len s = s.length := by
  induction s with
  | nil => rfl
  | cons c cs ih =>
      have hc := charBytes_ascii (h c (List.mem_cons_self c cs))
      have ih' := ih (fun x hx => h x (List.mem_cons_of_mem c hx))
      simp only [utf8Len, List.map_cons, List.sum_cons, List.length_cons] at *
      omega

theorem takeBytes_ascii {s : Str} (h : ∀ c ∈ s, c.toNat < 128) :
    ∀ n : Nat, n ≤ s.length → takeBytes n s = some (s.take n) := by
  induction s with
  | nil =>
      intro n hn
      have hn0 : n = 0 := Nat.le_zero.mp hn
      subst hn0
      rfl
  | cons c cs ih =>
      intro n hn
      cases n with
      | zero => rfl
      | succ m =>
          have hc := charBytes_ascii (h c (List.mem_cons_self c cs))
          have hm : m ≤ cs.length := by
            simpa [Nat.succ_le_succ_iff] using hn
          rw [takeBytes, if_pos (by omega), hc,
            show m + 1 - 1 = m from rfl]
          rw [ih (fun x hx => h x (List.mem_cons_of_mem c hx)) m hm]
          simp

/-- C4 counterexample: 26 copies of the two-byte character U+00E9 form a
26-character string — at most 50 characters — yet the code truncates it
(indeed panics: 47 bytes is not a character boundary), so the claim's
character-based reading is false. -/
theorem preview_truncation_counterexample :
    (List.replicate 26 (Char.ofNat 233)).length ≤ 50 ∧
      content_display (List.replicate 26 (Char.ofNat 233))
        ≠ some (List.replicate 26 (Char.ofNat 233)) := by
  constructor
  · decide
  · decide

/-- C4 (amended): the source measures UTF-8 bytes, not characters.  For
ASCII-only content the two coincide and the claim holds: content of more
than 50 characters is truncated to its first 47 characters plus `...`,
and content of at most 50 characters is shown untruncated. -/
theorem preview_truncation_ascii (s : Str)
    (hascii : ∀ c ∈ s, c.toNat < 128) :
    (s.length ≤ 50 → content_display s = some s) ∧
    (50 < s.length →
      content_display s = some (s.take 47 ++ ['.', '.', '.'])) := by
  constructor
  · intro hle
    rw [content_display, if_neg (by rw [utf8Len_ascii hascii]; omega)]
  · intro hgt
    rw [content_display, if_pos (by rw [utf8Len_ascii hascii]; omega)]
    rw [takeBytes_ascii hascii 47 (by omega)]
    rfl

/-- Witness for C4's amended theorem at concrete ASCII inputs. -/
theorem preview_truncation_ascii_witness :
    ((∀ c ∈ List.replicate 51 'a', c.toNat < 128) ∧ 50 < 51) ∧
      content_display (List.replicate 51 'a')
        = some ((List.replicate 51 'a').take 47 ++ ['.', '.', '.']) :=
  ⟨⟨by decide, by omega⟩,
    (preview_truncation_ascii (List.replicate 51 'a') (by decide)).2
      (by simp)⟩

/-- C10: for a timestamp at most the current clock the bucketed age of the
true difference is returned, but for a timestamp in the future the
subtraction wraps modulo `2 ^ 64`, producing the bucketing of the
astronomically large value `2 ^ 64 - (timestamp - now)` (days bucket)
rather than a meaningful age. -/
theorem formatted_time_unguarded_sub (now ts : Nat) (hn : now < U64_MOD)
    (ht : ts < U64_MOD) :
    (ts ≤ now → formatted_time now ts = ageBucket (now - ts)) ∧
    (now < ts → wrapSub now ts = U64_MOD - (ts - now)) ∧
    (now < ts → ts - now ≤ U64_MOD - 86400 →
      formatted_time now ts = .days ((U64_MOD - (ts - now)) / 86400)) := by
  have hmod : ts % U64_MOD = ts := Nat.mod_eq_of_lt ht
  refine ⟨?_, ?_, ?_⟩
  · intro hle
    have hw : wrapSub now ts = now - ts := by
      rw [wrapSub, hmod]
      simp only [U64_MOD] at *
      omega
    rw [formatted_time, hw]
  · intro hlt
    rw [wrapSub, hmod]
    simp only [U64_MOD] at *
    omega
  · intro hlt hbound
    have hw : wrapSub now ts = U64_MOD - (ts - now) := by
      rw [wrapSub, hmod]
      simp only [U64_MOD] at *
      omega
    have hbig : 86400 ≤ U64_MOD - (ts - now) := by
      simp only [U64_MOD] at *
      omega
    rw [formatted_time, hw, ageBucket, if_neg (by omega), if_neg (by omega),
      if_neg (by omega)]

/-- Witness for C10 at concrete clock readings, both orientations. -/
theorem formatted_time_unguarded_sub_witness :
    ((40 : Nat) ≤ 100 ∧ formatted_time 100 40 = ageBucket (100 - 40)) ∧
    ((100 : Nat) < 500 ∧ wrapSub 100 500 = U64_MOD - (500 - 100)) :=
  ⟨⟨by norm_num,
      (formatted_time_unguarded_sub 100 40 (by norm_num [U64_MOD])
        (by norm_num [U64_MOD])).1 (by norm_num)⟩,
    ⟨by norm_num,
      (formatted_time_unguarded_sub 100 500 (by norm_num [U64_MOD])
        (by norm_num [U64_MOD])).2.1 (by norm_num)⟩⟩

end CopyCat
